import Mathlib

/-!
Shallow embedding of the Tivoli wheel component (`src/src/App.tsx`).

The component partitions a circle into `N` labelled sectors (`createWheel`),
animates a spin with a cubic ease-out curve (`spin` / `easeOut`), and resolves
which sector sits under the fixed pointer at angle `3π/2` when the wheel stops
(`getWinningItem`).  Numbers are modelled as real numbers; the JavaScript
remainder operator `%` (sign follows the dividend) is modelled by `jsMod`, and
the integer remainder `slicesFromTop % recipes.length` by `Int.tmod`, which has
the same truncated-division semantics.
-/

namespace Tivoli

/-- Palette of slice colors, `COLORS` in the source (10 entries). -/
def COLORS : List ℕ :=
  [0xFF6B6B, 0x4ECDC4, 0x45B7D1, 0xFFA07A, 0x98D8C8,
   0xF67280, 0xC06C84, 0x6C5B7B, 0x355C7D, 0xF8B195]

/-- Truncation of a real toward zero, as JavaScript division underlying `%`. -/
noncomputable def jsTrunc (x : ℝ) : ℤ := if 0 ≤ x then ⌊x⌋ else ⌈x⌉

/-- JavaScript remainder `a % b` on numbers: `a - b * trunc (a / b)`, so the
sign of the result follows the dividend. -/
noncomputable def jsMod (a b : ℝ) : ℝ := a - b * jsTrunc (a / b)

/-- One angular slice of the wheel, as laid out by `createWheel`
(source lines 40-49): `startAngle = (index / N) * π * 2`,
`endAngle = ((index + 1) / N) * π * 2`, filled with
`COLORS[index % COLORS.length]`. -/
structure Sector where
  index : ℕ
  startAngle : ℝ
  endAngle : ℝ
  color : ℕ

/-- Wheel construction, `createWheel` (source lines 25-67).  The guard on
line 26 returns early — building nothing, reporting nothing — when
`recipes.length < 2 || recipes.length > 100`; that silent no-op is modelled as
`none`.  Otherwise one `Sector` per recipe, in recipe order. -/
noncomputable def createWheel (recipes : List String) : Option (List Sector) :=
  if recipes.length < 2 ∨ 100 < recipes.length then none
  else some ((List.range recipes.length).map fun index =>
    { index := index
      startAngle := (index : ℝ) / (recipes.length : ℝ) * Real.pi * 2
      endAngle := ((index : ℝ) + 1) / (recipes.length : ℝ) * Real.pi * 2
      color := COLORS.getD (index % COLORS.length) 0 })

/-- The sector `createWheel recipes` puts at position `i`, when the wheel was
built and `i` is in range. -/
noncomputable def sectorAt (recipes : List String) (i : ℕ) : Option Sector :=
  (createWheel recipes).bind fun sectors => sectors[i]?

/-- The winning index computed by `getWinningItem` (source lines 108-120):
normalize the rotation into `[0, 2π)`, measure how many slices the un-rotated
position under the pointer (`topPosition = 3π/2`) is from angle zero, and
reduce modulo the recipe count.  `Math.floor` of a nonnegative real is
`Int.floor`; the final JavaScript `%` on integer values is `Int.tmod`. -/
noncomputable def winningIndex (recipes : List String) (finalRotation : ℝ) : ℤ :=
  let normalizedRotation := jsMod (jsMod finalRotation (Real.pi * 2) + Real.pi * 2) (Real.pi * 2)
  let sliceAngle := Real.pi * 2 / (recipes.length : ℝ)
  let topPosition := 3 * Real.pi / 2
  let slicesFromTop := ⌊jsMod (topPosition - normalizedRotation + Real.pi * 2) (Real.pi * 2) / sliceAngle⌋
  Int.tmod slicesFromTop (recipes.length : ℤ)

/-- Winner resolution, `getWinningItem` (source lines 104-123): `null` for an
empty recipe list (line 105), otherwise the name at `winningIndex`.  The
source indexes `recipes[winningIndex]` directly; the lookup is modelled with
`List.getElem?`, and `winningIndex` is proved to be in range below. -/
noncomputable def getWinningItem (recipes : List String) (finalRotation : ℝ) : Option String :=
  if recipes.length = 0 then none
  else recipes[(winningIndex recipes finalRotation).toNat]?

/-- Cubic ease-out, `easeOut` (source line 141). -/
def easeOut (t : ℝ) : ℝ := 1 - (1 - t) ^ 3

/-- Fixed spin duration in milliseconds, `spinDuration` (source line 132). -/
def spinDuration : ℝ := 10000

/-- Total number of turns drawn at spin start, `maxRotations` (source line
133): `10 + Math.random()`, with the random sample passed in as `u`. -/
def maxRotations (u : ℝ) : ℝ := 10 + u

/-- Rotation reported by one animation frame (source lines 137-143):
`progress = min(elapsed / spinDuration, 1)` and
`rotation = maxRotations * π * 2 * easeOut progress`. -/
noncomputable def frameRotation (mR startTime now duration : ℝ) : ℝ :=
  let progress := min ((now - startTime) / duration) 1
  mR * Real.pi * 2 * easeOut progress

/-- The component state the `spin` callback reads and writes:
`isSpinning` and `winningItem` (source lines 22-23). -/
structure SpinState where
  isSpinning : Bool
  winningItem : Option String
  deriving Repr, DecidableEq

/-- Entry of the `spin` callback (source lines 125-130).  The guard on line
126 returns early — silently, producing no value — when the wheel refs are
missing, the recipe list is empty, or a spin is already in flight; the
returned `Bool` records whether a spin actually began. -/
def spinStart (hasWheel : Bool) (recipes : List String) (s : SpinState) : SpinState × Bool :=
  if ¬hasWheel ∨ recipes.length = 0 ∨ s.isSpinning then (s, false)
  else ({ isSpinning := true, winningItem := none }, true)

/-- Completion branch of the animation loop (source lines 148-152): resolve
the winner at the final rotation and clear the spinning flag. -/
noncomputable def spinFinish (recipes : List String) (rotation : ℝ) (_s : SpinState) : SpinState :=
  { isSpinning := false, winningItem := getWinningItem recipes rotation }

/-- Sector 1 of a four-label wheel, used as a concrete test vector. -/
noncomputable def demoSector4 : Sector :=
  { index := 1
    startAngle := (1 : ℝ) / (4 : ℝ) * Real.pi * 2
    endAngle := ((1 : ℝ) + 1) / (4 : ℝ) * Real.pi * 2
    color := COLORS.getD (1 % COLORS.length) 0 }

/-- Sector 10 of an eleven-label wheel — one past the ten-color palette. -/
noncomputable def demoSector11 : Sector :=
  { index := 10
    startAngle := (10 : ℝ) / (11 : ℝ) * Real.pi * 2
    endAngle := ((10 : ℝ) + 1) / (11 : ℝ) * Real.pi * 2
    color := COLORS.getD (10 % COLORS.length) 0 }

/-- The two sectors of a two-label wheel, used as a concrete test vector. -/
noncomputable def demoWheel2 : List Sector :=
  (List.range 2).map fun index =>
    { index := index
      startAngle := (index : ℝ) / (2 : ℝ) * Real.pi * 2
      endAngle := ((index : ℝ) + 1) / (2 : ℝ) * Real.pi * 2
      color := COLORS.getD (index % COLORS.length) 0 }

/-! ### Basic facts about the JavaScript remainder -/

lemma jsTrunc_of_nonneg {x : ℝ} (h : 0 ≤ x) : jsTrunc x = ⌊x⌋ := if_pos h

lemma jsMod_eq_fract {a b : ℝ} (hb : 0 < b) (ha : 0 ≤ a) :
    jsMod a b = b * Int.fract (a / b) := by
  rw [jsMod, jsTrunc_of_nonneg (div_nonneg ha hb.le), Int.fract]
  field_simp

/-- The two-step normalization `((r % 2π) + 2π) % 2π` of the source (line 108)
reduces any real rotation to `2π` times the fractional part of `r / 2π`,
which lies in `[0, 2π)`. -/
lemma normalized_eq (r : ℝ) :
    jsMod (jsMod r (Real.pi * 2) + Real.pi * 2) (Real.pi * 2)
      = Real.pi * 2 * Int.fract (r / (Real.pi * 2)) := by
  have hb : (0:ℝ) < Real.pi * 2 := by positivity
  rcases le_or_lt 0 r with hr | hr
  · rw [jsMod_eq_fract hb hr]
    have hf0 : 0 ≤ Int.fract (r / (Real.pi * 2)) := Int.fract_nonneg _
    have h1 : 0 ≤ Real.pi * 2 * Int.fract (r / (Real.pi * 2)) + Real.pi * 2 := by nlinarith
    rw [jsMod_eq_fract hb h1]
    have h2 : (Real.pi * 2 * Int.fract (r / (Real.pi * 2)) + Real.pi * 2) / (Real.pi * 2)
        = Int.fract (r / (Real.pi * 2)) + 1 := by
      field_simp
      ring
    rw [h2, Int.fract_add_one, Int.fract_fract]
  · have hq : r / (Real.pi * 2) < 0 := div_neg_of_neg_of_pos hr hb
    have hinner : jsMod r (Real.pi * 2) = r - Real.pi * 2 * ⌈r / (Real.pi * 2)⌉ := by
      rw [jsMod, jsTrunc, if_neg (not_le.mpr hq)]
    rw [hinner]
    have hr_eq : r = Real.pi * 2 * (r / (Real.pi * 2)) := by field_simp
    have hceil : ((⌈r / (Real.pi * 2)⌉ : ℝ)) < r / (Real.pi * 2) + 1 :=
      Int.ceil_lt_add_one _
    have hnn : 0 ≤ r - Real.pi * 2 * ⌈r / (Real.pi * 2)⌉ + Real.pi * 2 := by nlinarith
    rw [jsMod_eq_fract hb hnn]
    have h2 : (r - Real.pi * 2 * ⌈r / (Real.pi * 2)⌉ + Real.pi * 2) / (Real.pi * 2)
        = r / (Real.pi * 2) + ((1 - ⌈r / (Real.pi * 2)⌉ : ℤ) : ℝ) := by
      push_cast
      field_simp
      ring
    rw [h2, Int.fract_add_int]

/-! ### Closed form for the winner resolution -/

/-- Closed form of `winningIndex`: the index is the floor of
`N · fract (3/4 − r/2π)`, i.e. the wheel position `3π/2 − r` mod `2π`
measured in slices. -/
lemma winningIndex_eq (recipes : List String) (h : 0 < recipes.length) (r : ℝ) :
    winningIndex recipes r
      = ⌊(recipes.length : ℝ) * Int.fract (3 / 4 - r / (Real.pi * 2))⌋ := by
  have hπ : (0:ℝ) < Real.pi := Real.pi_pos
  have hb : (0:ℝ) < Real.pi * 2 := by positivity
  have hN : (0:ℝ) < (recipes.length : ℝ) := by exact_mod_cast h
  rw [winningIndex, normalized_eq]
  have hf0 : 0 ≤ Int.fract (r / (Real.pi * 2)) := Int.fract_nonneg _
  have hf1 : Int.fract (r / (Real.pi * 2)) < 1 := Int.fract_lt_one _
  have harg : 0 ≤ 3 * Real.pi / 2 - Real.pi * 2 * Int.fract (r / (Real.pi * 2)) + Real.pi * 2 := by
    nlinarith
  rw [jsMod_eq_fract hb harg]
  have h2 : (3 * Real.pi / 2 - Real.pi * 2 * Int.fract (r / (Real.pi * 2)) + Real.pi * 2)
      / (Real.pi * 2) = (3 / 4 - Int.fract (r / (Real.pi * 2))) + 1 := by
    field_simp
    ring
  rw [h2, Int.fract_add_one]
  have h3 : 3 / 4 - Int.fract (r / (Real.pi * 2))
      = (3 / 4 - r / (Real.pi * 2)) + ((⌊r / (Real.pi * 2)⌋ : ℤ) : ℝ) := by
    rw [Int.fract]
    ring
  rw [h3, Int.fract_add_int]
  have h4 : Real.pi * 2 * Int.fract (3 / 4 - r / (Real.pi * 2))
      / (Real.pi * 2 / (recipes.length : ℝ))
      = (recipes.length : ℝ) * Int.fract (3 / 4 - r / (Real.pi * 2)) := by
    field_simp
    ring
  rw [h4]
  have hg0 : 0 ≤ Int.fract (3 / 4 - r / (Real.pi * 2)) := Int.fract_nonneg _
  have hg1 : Int.fract (3 / 4 - r / (Real.pi * 2)) < 1 := Int.fract_lt_one _
  have hfl0 : 0 ≤ ⌊(recipes.length : ℝ) * Int.fract (3 / 4 - r / (Real.pi * 2))⌋ :=
    Int.floor_nonneg.2 (by positivity)
  have hflN : ⌊(recipes.length : ℝ) * Int.fract (3 / 4 - r / (Real.pi * 2))⌋
      < (recipes.length : ℤ) := by
    refine Int.floor_lt.2 ?_
    push_cast
    nlinarith
  rw [Int.tmod_eq_emod hfl0 (by exact_mod_cast h.le)]
  exact Int.emod_eq_of_lt hfl0 hflN

/-- The winner, in closed form, for a nonempty recipe list. -/
lemma getWinningItem_eq (recipes : List String) (h : 0 < recipes.length) (r : ℝ) :
    getWinningItem recipes r
      = recipes[(⌊(recipes.length : ℝ) * Int.fract (3 / 4 - r / (Real.pi * 2))⌋).toNat]? := by
  rw [getWinningItem, if_neg h.ne', winningIndex_eq recipes h r]

/-- The computed winning index always lands in `[0, N)` for a nonempty list. -/
lemma winningIndex_bounds (recipes : List String) (h : 0 < recipes.length) (r : ℝ) :
    0 ≤ winningIndex recipes r ∧ winningIndex recipes r < (recipes.length : ℤ) := by
  rw [winningIndex_eq recipes h r]
  have hg0 : (0:ℝ) ≤ Int.fract (3 / 4 - r / (Real.pi * 2)) := Int.fract_nonneg _
  have hg1 : Int.fract (3 / 4 - r / (Real.pi * 2)) < 1 := Int.fract_lt_one _
  have hN : (0:ℝ) < (recipes.length : ℝ) := by exact_mod_cast h
  refine ⟨Int.floor_nonneg.2 (by positivity), Int.floor_lt.2 ?_⟩
  push_cast
  nlinarith

/-! ### Structure of the built wheel -/

lemma createWheel_eq_some (recipes : List String) (h2 : 2 ≤ recipes.length)
    (h100 : recipes.length ≤ 100) :
    createWheel recipes = some ((List.range recipes.length).map fun index =>
      { index := index
        startAngle := (index : ℝ) / (recipes.length : ℝ) * Real.pi * 2
        endAngle := ((index : ℝ) + 1) / (recipes.length : ℝ) * Real.pi * 2
        color := COLORS.getD (index % COLORS.length) 0 }) := by
  rw [createWheel, if_neg]
  push_neg
  omega

lemma sectorAt_eq (recipes : List String) (h2 : 2 ≤ recipes.length)
    (h100 : recipes.length ≤ 100) (i : ℕ) (hi : i < recipes.length) :
    sectorAt recipes i = some
      { index := i
        startAngle := (i : ℝ) / (recipes.length : ℝ) * Real.pi * 2
        endAngle := ((i : ℝ) + 1) / (recipes.length : ℝ) * Real.pi * 2
        color := COLORS.getD (i % COLORS.length) 0 } := by
  rw [sectorAt, createWheel_eq_some recipes h2 h100]
  simp [List.getElem?_map, List.getElem?_range, hi]

/-- Inversion: a sector delivered by `sectorAt` carries exactly the angles and
color `createWheel` wrote for its position. -/
lemma sectorAt_inv {recipes : List String} {i : ℕ} {s : Sector}
    (h : sectorAt recipes i = some s) :
    2 ≤ recipes.length ∧ recipes.length ≤ 100 ∧ i < recipes.length ∧
    s.index = i ∧
    s.startAngle = (i : ℝ) / (recipes.length : ℝ) * Real.pi * 2 ∧
    s.endAngle = ((i : ℝ) + 1) / (recipes.length : ℝ) * Real.pi * 2 ∧
    s.color = COLORS.getD (i % COLORS.length) 0 := by
  by_cases hc : recipes.length < 2 ∨ 100 < recipes.length
  · rw [sectorAt, createWheel, if_pos hc] at h
    simp at h
  · push_neg at hc
    by_cases hi : i < recipes.length
    · rw [sectorAt_eq recipes hc.1 hc.2 i hi] at h
      obtain rfl : _ = s := Option.some.inj h
      exact ⟨hc.1, hc.2, hi, rfl, rfl, rfl, rfl⟩
    · rw [sectorAt, createWheel_eq_some recipes hc.1 hc.2] at h
      rw [Option.some_bind] at h
      rw [List.getElem?_eq_none (by simpa using not_lt.mp hi)] at h
      cases h

/-! ### Claim theorems -/

/-- C10: when the label sequence is empty, `getWinningItem` returns `null`
for every rotation value, rather than raising an error or computing an
index. -/
theorem getWinningItem_nil (r : ℝ) : getWinningItem [] r = none := by
  simp [getWinningItem]

/-- C8: the easing function `easeOut t = 1 - (1 - t)^3` is non-decreasing on
`[0, 1]`, with `easeOut 0 = 0` and `easeOut 1 = 1`. -/
theorem easeOut_monotone (t₁ t₂ : ℝ) (_h0 : 0 ≤ t₁) (h : t₁ ≤ t₂) (h1 : t₂ ≤ 1) :
    easeOut t₁ ≤ easeOut t₂ ∧ easeOut 0 = 0 ∧ easeOut 1 = 1 := by
  refine ⟨?_, by norm_num [easeOut], by norm_num [easeOut]⟩
  have hcube : (1 - t₂) ^ 3 ≤ (1 - t₁) ^ 3 :=
    pow_le_pow_left₀ (by linarith) (by linarith) 3
  simp only [easeOut]
  linarith

theorem easeOut_monotone_witness :
    (0:ℝ) ≤ 0 ∧ (0:ℝ) ≤ 1 ∧ (1:ℝ) ≤ 1 ∧
    (easeOut 0 ≤ easeOut 1 ∧ easeOut 0 = 0 ∧ easeOut 1 = 1) :=
  ⟨le_refl 0, zero_le_one, le_refl 1,
    easeOut_monotone 0 1 (le_refl 0) zero_le_one (le_refl 1)⟩

/-- C7: the total rotation is drawn as `maxRotations u = 10 + u` — a fixed
base of `10 ≥ 10` full turns plus the random sample — and at every sampled
time at or after the start, the reported frame rotation equals
`totalRotations · 2π · easeOut (clamp ((now - startTime) / duration) 0 1)`. -/
theorem frameRotation_eq (u startTime now : ℝ) (h : startTime ≤ now) :
    maxRotations u = 10 + u ∧
    frameRotation (maxRotations u) startTime now spinDuration
      = maxRotations u * Real.pi * 2 *
          (1 - (1 - max 0 (min ((now - startTime) / spinDuration) 1)) ^ 3) := by
  refine ⟨rfl, ?_⟩
  have hd : (0:ℝ) < spinDuration := by norm_num [spinDuration]
  have hx : 0 ≤ (now - startTime) / spinDuration := div_nonneg (by linarith) hd.le
  have hmin : (0:ℝ) ≤ min ((now - startTime) / spinDuration) 1 := le_min hx zero_le_one
  rw [max_eq_right hmin]
  simp only [frameRotation, easeOut]

theorem frameRotation_eq_witness :
    (0:ℝ) ≤ 0 ∧
    (maxRotations 0 = 10 + 0 ∧
      frameRotation (maxRotations 0) 0 0 spinDuration
        = maxRotations 0 * Real.pi * 2 *
            (1 - (1 - max 0 (min ((0 - 0) / spinDuration) 1)) ^ 3)) :=
  ⟨le_refl 0, frameRotation_eq 0 0 0 (le_refl 0)⟩

/-- C2: for every label sequence with `2 ≤ N ≤ 100` and every rotation, the
winning index lies in `[0, N)` and resolution is periodic with period `2π`. -/
theorem winningIndex_range_periodic (recipes : List String)
    (h2 : 2 ≤ recipes.length) (h100 : recipes.length ≤ 100) (r : ℝ) :
    0 ≤ winningIndex recipes r ∧ winningIndex recipes r < (recipes.length : ℤ) ∧
    getWinningItem recipes r = getWinningItem recipes (r + Real.pi * 2) := by
  have h : 0 < recipes.length := by omega
  obtain ⟨hb1, hb2⟩ := winningIndex_bounds recipes h r
  refine ⟨hb1, hb2, ?_⟩
  rw [getWinningItem_eq recipes h r, getWinningItem_eq recipes h (r + Real.pi * 2)]
  have hπ : (Real.pi * 2 : ℝ) ≠ 0 := by positivity
  have hd : (r + Real.pi * 2) / (Real.pi * 2) = r / (Real.pi * 2) + 1 := by
    rw [add_div, div_self hπ]
  have hshift : 3 / 4 - (r + Real.pi * 2) / (Real.pi * 2)
      = (3 / 4 - r / (Real.pi * 2)) + ((-1 : ℤ) : ℝ) := by
    rw [hd]
    push_cast
    ring
  rw [hshift, Int.fract_add_int]

theorem winningIndex_range_periodic_witness :
    2 ≤ (["A", "B"] : List String).length ∧ (["A", "B"] : List String).length ≤ 100 ∧
    (0 ≤ winningIndex ["A", "B"] 0 ∧
      winningIndex ["A", "B"] 0 < ((["A", "B"] : List String).length : ℤ) ∧
      getWinningItem ["A", "B"] 0 = getWinningItem ["A", "B"] (0 + Real.pi * 2)) :=
  ⟨by decide, by decide, winningIndex_range_periodic ["A", "B"] (by decide) (by decide) 0⟩

/-- C9: the fill color assigned to sector `i` is the palette entry at
`i mod paletteSize` — a pure total assignment that cycles through the palette
in order for any sector count, including counts above the palette size. -/
theorem sector_color_mod (recipes : List String) (i : ℕ) (s : Sector)
    (hs : sectorAt recipes i = some s) :
    s.color = COLORS.getD (i % COLORS.length) 0 ∧
    COLORS.getD ((i + COLORS.length) % COLORS.length) 0
      = COLORS.getD (i % COLORS.length) 0 := by
  refine ⟨(sectorAt_inv hs).2.2.2.2.2.2, ?_⟩
  rw [Nat.add_mod_right]

theorem sector_color_mod_witness :
    sectorAt (List.replicate 11 "X") 10 = some demoSector11 ∧
    (demoSector11.color = COLORS.getD (10 % COLORS.length) 0 ∧
     COLORS.getD ((10 + COLORS.length) % COLORS.length) 0
       = COLORS.getD (10 % COLORS.length) 0) := by
  have hs : sectorAt (List.replicate 11 "X") 10 = some demoSector11 := by
    rw [sectorAt_eq (List.replicate 11 "X") (by simp) (by simp) 10 (by simp)]
    simp [demoSector11]
  exact ⟨hs, sector_color_mod _ 10 demoSector11 hs⟩

/-- C3: the `N` sectors built by `createWheel` each span exactly `2π/N`,
appear in label order, and tile `[0, 2π)`: the first starts at `0`, each
sector ends where the next starts, and the last ends at `2π`. -/
theorem sectors_tile (recipes : List String) (sectors : List Sector)
    (hcw : createWheel recipes = some sectors) :
    sectors.length = recipes.length ∧
    (∀ (i : ℕ) (s : Sector), sectors[i]? = some s → s.index = i ∧
        s.endAngle - s.startAngle = Real.pi * 2 / (recipes.length : ℝ)) ∧
    (∀ (s : Sector), sectors[0]? = some s → s.startAngle = 0) ∧
    (∀ (i : ℕ) (s t : Sector), sectors[i]? = some s → sectors[i + 1]? = some t →
        t.startAngle = s.endAngle) ∧
    (∀ (s : Sector), sectors[recipes.length - 1]? = some s →
        s.endAngle = Real.pi * 2) := by
  by_cases hc : recipes.length < 2 ∨ 100 < recipes.length
  · rw [createWheel, if_pos hc] at hcw
    cases hcw
  · push_neg at hc
    rw [createWheel_eq_some recipes hc.1 hc.2] at hcw
    obtain rfl : _ = sectors := Option.some.inj hcw
    have hN0 : ((recipes.length : ℕ) : ℝ) ≠ 0 := by
      exact_mod_cast (by omega : recipes.length ≠ 0)
    refine ⟨by simp, ?_, ?_, ?_, ?_⟩
    · intro i s h
      by_cases hi : i < recipes.length
      · simp only [List.getElem?_map, List.getElem?_range, hi, Option.map_some] at h
        obtain rfl : _ = s := Option.some.inj h
        dsimp only
        refine ⟨rfl, ?_⟩
        field_simp
        ring
      · rw [List.getElem?_eq_none (by simpa using not_lt.mp hi)] at h
        cases h
    · intro s h
      have h0 : 0 < recipes.length := by omega
      simp only [List.getElem?_map, List.getElem?_range, h0, Option.map_some] at h
      obtain rfl : _ = s := Option.some.inj h
      dsimp only
      simp
    · intro i s t hsi hti
      by_cases hi : i + 1 < recipes.length
      · simp only [List.getElem?_map, List.getElem?_range, hi,
          (by omega : i < recipes.length), Option.map_some] at hsi hti
        obtain rfl : _ = s := Option.some.inj hsi
        obtain rfl : _ = t := Option.some.inj hti
        dsimp only
        push_cast
        ring
      · rw [List.getElem?_eq_none (by simpa using not_lt.mp hi)] at hti
        cases hti
    · intro s h
      have hlast : recipes.length - 1 < recipes.length := by omega
      simp only [List.getElem?_map, List.getElem?_range, hlast, Option.map_some] at h
      obtain rfl : _ = s := Option.some.inj h
      dsimp only
      have hcast : ((recipes.length - 1 : ℕ) : ℝ) = (recipes.length : ℝ) - 1 := by
        push_cast [Nat.cast_sub (by omega : 1 ≤ recipes.length)]
        ring
      rw [hcast]
      field_simp

theorem sectors_tile_witness :
    createWheel ["A", "B"] = some demoWheel2 ∧
    (demoWheel2.length = (["A", "B"] : List String).length ∧
     (∀ (i : ℕ) (s : Sector), demoWheel2[i]? = some s → s.index = i ∧
         s.endAngle - s.startAngle = Real.pi * 2 / ((["A", "B"] : List String).length : ℝ)) ∧
     (∀ (s : Sector), demoWheel2[0]? = some s → s.startAngle = 0) ∧
     (∀ (i : ℕ) (s t : Sector), demoWheel2[i]? = some s → demoWheel2[i + 1]? = some t →
         t.startAngle = s.endAngle) ∧
     (∀ (s : Sector), demoWheel2[(["A", "B"] : List String).length - 1]? = some s →
         s.endAngle = Real.pi * 2)) := by
  have hcw : createWheel ["A", "B"] = some demoWheel2 := by
    rw [createWheel_eq_some ["A", "B"] (by decide) (by decide)]
    simp [demoWheel2]
  exact ⟨hcw, sectors_tile ["A", "B"] demoWheel2 hcw⟩

/-- C1: for an angle strictly inside sector `i`'s span as laid out by
`createWheel`, resolving the rotation `pointerAngle - a` (with
`pointerAngle = 3π/2`) returns the label at index `i`. -/
theorem resolve_consistent (recipes : List String) (i : ℕ) (s : Sector)
    (hs : sectorAt recipes i = some s) (a : ℝ)
    (ha1 : s.startAngle < a) (ha2 : a < s.endAngle) :
    getWinningItem recipes (3 * Real.pi / 2 - a) = recipes[i]? := by
  obtain ⟨h2, _h100, hi, _hidx, hstart, hend, _hcol⟩ := sectorAt_inv hs
  have h : 0 < recipes.length := by omega
  have hN : (0:ℝ) < (recipes.length : ℝ) := by exact_mod_cast h
  have hπ : (0:ℝ) < Real.pi := Real.pi_pos
  rw [getWinningItem_eq recipes h]
  have harg : 3 / 4 - (3 * Real.pi / 2 - a) / (Real.pi * 2) = a / (Real.pi * 2) := by
    field_simp
    ring
  rw [harg]
  rw [hstart] at ha1
  rw [hend] at ha2
  have hiN : ((i:ℝ) + 1) ≤ (recipes.length : ℝ) := by exact_mod_cast hi
  have key1 : (i:ℝ) * (Real.pi * 2) < (recipes.length:ℝ) * a := by
    have hmul := mul_lt_mul_of_pos_left ha1 hN
    calc (i:ℝ) * (Real.pi * 2)
        = (recipes.length:ℝ) * ((i:ℝ) / (recipes.length:ℝ) * Real.pi * 2) := by
          field_simp
          ring
      _ < (recipes.length:ℝ) * a := hmul
  have key2 : (recipes.length:ℝ) * a < ((i:ℝ) + 1) * (Real.pi * 2) := by
    have hmul := mul_lt_mul_of_pos_left ha2 hN
    calc (recipes.length:ℝ) * a
        < (recipes.length:ℝ) * (((i:ℝ) + 1) / (recipes.length:ℝ) * Real.pi * 2) := hmul
      _ = ((i:ℝ) + 1) * (Real.pi * 2) := by
          field_simp
          ring
  have hNt : (recipes.length:ℝ) * (a / (Real.pi * 2))
      = (recipes.length:ℝ) * a / (Real.pi * 2) := (mul_div_assoc _ _ _).symm
  have klow : (i:ℝ) < (recipes.length:ℝ) * (a / (Real.pi * 2)) := by
    rw [hNt, lt_div_iff₀ (by positivity)]
    exact key1
  have khigh : (recipes.length:ℝ) * (a / (Real.pi * 2)) < (i:ℝ) + 1 := by
    rw [hNt, div_lt_iff₀ (by positivity)]
    exact key2
  have ht0 : 0 ≤ a / (Real.pi * 2) := by
    have ha0 : 0 ≤ a := by
      have : (0:ℝ) ≤ (i:ℝ) / (recipes.length:ℝ) * Real.pi * 2 := by positivity
      linarith
    positivity
  have ht1 : a / (Real.pi * 2) < 1 := by
    have hlt : (recipes.length:ℝ) * (a / (Real.pi * 2)) < (recipes.length:ℝ) * 1 := by
      rw [mul_one]
      exact khigh.trans_le hiN
    exact lt_of_mul_lt_mul_left hlt hN.le
  rw [Int.fract_eq_self.2 ⟨ht0, ht1⟩]
  have hfloor : ⌊(recipes.length : ℝ) * (a / (Real.pi * 2))⌋ = (i : ℤ) := by
    rw [Int.floor_eq_iff]
    push_cast
    exact ⟨klow.le, khigh⟩
  rw [hfloor]
  simp

theorem resolve_consistent_witness :
    sectorAt ["A", "B", "C", "D"] 1 = some demoSector4 ∧
    demoSector4.startAngle < 3 * Real.pi / 4 ∧
    3 * Real.pi / 4 < demoSector4.endAngle ∧
    getWinningItem ["A", "B", "C", "D"] (3 * Real.pi / 2 - 3 * Real.pi / 4)
      = (["A", "B", "C", "D"] : List String)[1]? := by
  have hs : sectorAt ["A", "B", "C", "D"] 1 = some demoSector4 := by
    rw [sectorAt_eq ["A", "B", "C", "D"] (by decide) (by decide) 1 (by decide)]
    simp [demoSector4]
  have ha1 : demoSector4.startAngle < 3 * Real.pi / 4 := by
    simp only [demoSector4]
    nlinarith [Real.pi_pos]
  have ha2 : 3 * Real.pi / 4 < demoSector4.endAngle := by
    simp only [demoSector4]
    nlinarith [Real.pi_pos]
  exact ⟨hs, ha1, ha2, resolve_consistent ["A", "B", "C", "D"] 1 demoSector4 hs _ ha1 ha2⟩

/-- Shared computation for the four-label example: at rotation `3π/2` the
code normalizes to `3π/2` (not `0`), so the winning index is `0` and the
winner is the label A. -/
lemma resolve_demo :
    winningIndex ["A", "B", "C", "D"] (3 * Real.pi / 2) = 0 ∧
    getWinningItem ["A", "B", "C", "D"] (3 * Real.pi / 2) = some "A" := by
  have hfr : 3 / 4 - (3 * Real.pi / 2) / (Real.pi * 2) = (0:ℝ) := by
    have hπ : Real.pi ≠ 0 := Real.pi_ne_zero
    field_simp
    ring
  constructor
  · rw [winningIndex_eq ["A", "B", "C", "D"] (by decide), hfr, Int.fract_zero]
    simp
  · rw [getWinningItem_eq ["A", "B", "C", "D"] (by decide), hfr, Int.fract_zero]
    simp

/-- C4 counterexample: resolving the final rotation `3π/2` on labels
`[A, B, C, D]` does not return D — the spec example mis-normalizes `3π/2`
to `0`; the code keeps `3π/2` and lands on index 0. -/
theorem resolve_three_half_pi_ne_D :
    getWinningItem ["A", "B", "C", "D"] (3 * Real.pi / 2) ≠ some "D" := by
  rw [resolve_demo.2]
  simp

/-- C4 amended: for labels `[A, B, C, D]`, resolving the final rotation
`3π/2` yields winning index `0`, i.e. the label A. -/
theorem resolve_three_half_pi_eq_A :
    winningIndex ["A", "B", "C", "D"] (3 * Real.pi / 2) = 0 ∧
    getWinningItem ["A", "B", "C", "D"] (3 * Real.pi / 2) = some "A" :=
  resolve_demo

/-- C5 counterexample: with 101 labels — a count outside `[2, 100]` —
resolution does not fail with any error: it silently computes a winner. -/
theorem resolve_101_labels_succeeds :
    getWinningItem (List.replicate 101 "X") 0 = some "X" := by
  rw [getWinningItem_eq _ (by simp)]
  have h34 : 3 / 4 - (0:ℝ) / (Real.pi * 2) = 3 / 4 := by norm_num
  rw [h34, Int.fract_eq_self.2 (by norm_num)]
  have hfl : ⌊((List.replicate 101 "X").length : ℝ) * (3 / 4)⌋ = 75 := by
    have hcast : ((List.replicate 101 "X").length : ℝ) = 101 := by simp
    rw [hcast, Int.floor_eq_iff]
    norm_num
  rw [hfl]
  simp [List.getElem?_replicate]

/-- C5 amended: an out-of-range label count is silently ignored, never
surfaced as an error: `createWheel` returns early building nothing, and
`getWinningItem` performs no count validation at all — for any nonempty
list, in range or not, it still returns a winner. -/
theorem invalid_count_silent (recipes : List String)
    (h : recipes.length < 2 ∨ 100 < recipes.length) :
    createWheel recipes = none ∧
    (0 < recipes.length → ∃ lbl, getWinningItem recipes 0 = some lbl) := by
  refine ⟨by rw [createWheel, if_pos h], fun hpos => ?_⟩
  obtain ⟨hb1, hb2⟩ := winningIndex_bounds recipes hpos 0
  have hlt : (winningIndex recipes 0).toNat < recipes.length := by omega
  rw [getWinningItem, if_neg hpos.ne']
  exact ⟨recipes[(winningIndex recipes 0).toNat], List.getElem?_eq_getElem hlt⟩

theorem invalid_count_silent_witness :
    ((List.replicate 101 "X").length < 2 ∨ 100 < (List.replicate 101 "X").length) ∧
    (createWheel (List.replicate 101 "X") = none ∧
      (0 < (List.replicate 101 "X").length →
        ∃ lbl, getWinningItem (List.replicate 101 "X") 0 = some lbl)) :=
  ⟨by norm_num, invalid_count_silent _ (by norm_num)⟩

/-- C6 counterexample: a second spin call while one is in flight returns
silently with the state unchanged — no spin begins and no error value of any
kind is produced, so nothing is surfaced to the caller. -/
theorem spin_reentrant_silent :
    spinStart true ["Pizza", "Pasta"] { isSpinning := true, winningItem := none }
      = ({ isSpinning := true, winningItem := none }, false) := by
  rfl

/-- C6 amended: while a spin is in flight, further spin calls are silently
ignored — rejected with no effect and no error, not queued — and once the
spin finishes a subsequent call does start a new spin, so at most one spin
is in flight at any time. -/
theorem spin_reentrancy (hasWheel : Bool) (recipes : List String) (s : SpinState)
    (hspin : s.isSpinning = true) (hW : hasWheel = true)
    (hN : 0 < recipes.length) (r : ℝ) :
    spinStart hasWheel recipes s = (s, false) ∧
    (spinStart hasWheel recipes (spinFinish recipes r s)).2 = true := by
  constructor
  · rw [spinStart, if_pos (Or.inr (Or.inr hspin))]
  · subst hW
    simp [spinStart, spinFinish, hN.ne']

theorem spin_reentrancy_witness :
    (({ isSpinning := true, winningItem := none } : SpinState).isSpinning = true) ∧
    (true = true) ∧ 0 < (["Pizza", "Pasta"] : List String).length ∧
    (spinStart true ["Pizza", "Pasta"] { isSpinning := true, winningItem := none }
        = ({ isSpinning := true, winningItem := none }, false) ∧
      (spinStart true ["Pizza", "Pasta"]
          (spinFinish ["Pizza", "Pasta"] 0
            { isSpinning := true, winningItem := none })).2 = true) :=
  ⟨rfl, rfl, by decide, spin_reentrancy true ["Pizza", "Pasta"] _ rfl rfl (by decide) 0⟩

end Tivoli
